import Mathlib

/-!
Shallow embedding of the acid-base titration simulator (src/app.py).

The computational core of the program is:
  * a volume series `np.arange(0, 50 + step_size, step_size)`;
  * a per-volume pH computation, branching on the strengths of the
    sample and the titrant;
  * a per-volume conductivity approximation;
  * a per-pH indicator color classification.

Scalar inputs are embedded as exact rationals.  The pH computation
produces transcendental values (log10, sqrt); it is embedded in two
layers: a computable symbolic result type `PHFormula` recording which
branch fired and the exact rational argument of the logarithm, and a
real-valued denotation `PHFormula.toReal` used in the theorems.
-/

namespace Titration

/-- Reagent strength, from the selectboxes "Strong Acid (HCl)" /
"Weak Acid (CH3COOH)" and "Strong Base (NaOH)" / "Weak Base (NH3)";
the code branches only on the Strong/Weak prefix. -/
inductive Strength where
  | strong : Strength
  | weak : Strength
deriving DecidableEq, Repr

/-- Indicator choice, from the selectbox in the sidebar. -/
inductive IndicatorName where
  | phenolphthalein : IndicatorName
  | methylOrange : IndicatorName
  | bromothymolBlue : IndicatorName
deriving DecidableEq, Repr

/-- The user inputs consumed by the computational core. -/
structure Config where
  sampleStrength : Strength
  titrantStrength : Strength
  sampleConc : ℚ
  sampleVol : ℚ
  titrantConc : ℚ
  stepSize : ℚ
  indicator : IndicatorName
deriving DecidableEq, Repr

/-- The input-control invariants: `min_value=0.01` on both
concentrations, `min_value=1.0` on the sample volume, and the step
slider range `[0.1, 5.0]`. -/
def validConfig (c : Config) : Prop :=
  0.01 ≤ c.sampleConc ∧ 0.01 ≤ c.titrantConc ∧ 1 ≤ c.sampleVol ∧
    0.1 ≤ c.stepSize ∧ c.stepSize ≤ 5

instance (c : Config) : Decidable (validConfig c) := by
  unfold validConfig; infer_instance

/-- `pKa_acetic = 4.76` from the source. -/
def pKaAcetic : ℚ := 4.76

/-- `Kb_ammonia = 1.8e-5` from the source. -/
def kbAmmonia : ℚ := 1.8e-5

/-- Number of elements of `np.arange(0, 50 + step, step)` in exact
arithmetic: the values are `k * step` for `k * step < 50 + step`,
which is `ceil((50 + step) / step)` values. -/
def numVols (step : ℚ) : ℕ := (Int.ceil ((50 + step) / step)).toNat

/-- `V_titrant = np.arange(0, 50 + step_size, step_size)` in exact
arithmetic: the list `0, step, 2*step, ...` of length `numVols step`. -/
def volumeSeries (step : ℚ) : List ℚ :=
  (List.range (numVols step)).map (fun (k : ℕ) => (k : ℚ) * step)

/-- Symbolic pH result: which closed form the branch produced,
with exact rational parameters.
  * `negLog10 x` denotes `-log10 x`;
  * `addLog10 a x` denotes `a + log10 x`;
  * `addLog10Sqrt a x` denotes `a + log10 (sqrt x)`;
  * `const q` denotes `q`. -/
inductive PHFormula where
  | negLog10 (x : ℚ) : PHFormula
  | addLog10 (a : ℚ) (x : ℚ) : PHFormula
  | addLog10Sqrt (a : ℚ) (x : ℚ) : PHFormula
  | const (q : ℚ) : PHFormula
deriving DecidableEq, Repr

/-- Real-valued denotation of a symbolic pH result. -/
noncomputable def PHFormula.toReal : PHFormula → ℝ
  | .negLog10 x => -Real.logb 10 (x : ℝ)
  | .addLog10 a x => (a : ℝ) + Real.logb 10 (x : ℝ)
  | .addLog10Sqrt a x => (a : ℝ) + Real.logb 10 (Real.sqrt (x : ℝ))
  | .const q => (q : ℝ)

/-- The rational arguments handed to `log10` by a symbolic pH result
(for the `addLog10Sqrt` case the argument of `log10` is the square
root of the recorded rational, which is positive iff the rational is). -/
def PHFormula.logArgs : PHFormula → List ℚ
  | .negLog10 x => [x]
  | .addLog10 _ x => [x]
  | .addLog10Sqrt _ x => [x]
  | .const _ => []

/-- The body of the pH loop of src/app.py (lines 38-74) for a single
titrant volume `V`, transcribed branch by branch. -/
def computePH (c : Config) (V : ℚ) : PHFormula :=
  let vTotal := c.sampleVol + V
  match c.sampleStrength, c.titrantStrength with
  | .strong, .strong =>
    let molesH := c.sampleConc * c.sampleVol / 1000
    let molesOH := c.titrantConc * V / 1000
    let excess := molesH - molesOH
    if 0 < excess then
      .negLog10 (excess / vTotal * 1000)
    else if excess < 0 then
      .addLog10 14 (|excess| / vTotal * 1000)
    else
      .const 7
  | .weak, .strong =>
    let molesHA := c.sampleConc * c.sampleVol / 1000
    let molesOH := c.titrantConc * V / 1000
    if molesOH < molesHA then
      .addLog10 pKaAcetic (molesOH / (molesHA - molesOH))
    else if molesOH = molesHA then
      .const pKaAcetic
    else
      .addLog10 14 ((molesOH - molesHA) / vTotal * 1000)
  | .strong, .weak =>
    let molesB := c.titrantConc * V / 1000
    if molesB = 0 then
      .negLog10 c.sampleConc
    else
      .addLog10Sqrt 14 (kbAmmonia * (molesB / vTotal * 1000))
  | .weak, .weak => .const 7

/-- The pH loop: one symbolic pH result per volume. -/
def phSeries (c : Config) : List PHFormula :=
  (volumeSeries c.stepSize).map (computePH c)

/-- The pH loop, denoted into the reals. -/
noncomputable def phRealSeries (c : Config) : List ℝ :=
  (phSeries c).map PHFormula.toReal

/-- The `indicator_range` table of src/app.py. -/
def indicatorRange : IndicatorName → ℚ × ℚ
  | .phenolphthalein => (8.2, 10.0)
  | .methylOrange => (3.1, 4.4)
  | .bromothymolBlue => (6.0, 7.6)

/-- The "low" entries of the `indicator_color_map` table. -/
def indicatorLowColor : IndicatorName → String
  | .phenolphthalein => "white"
  | .methylOrange => "red"
  | .bromothymolBlue => "yellow"

/-- The "high" entries of the `indicator_color_map` table. -/
def indicatorHighColor : IndicatorName → String
  | .phenolphthalein => "pink"
  | .methylOrange => "yellow"
  | .bromothymolBlue => "blue"

/-- The body of the colors loop of src/app.py (lines 79-85) for one pH
value `v`: low color below `low`, high color above `high`, the fixed
label "orange" in between (boundaries included). -/
def classifyColor {α : Type} [LinearOrder α] (low high v : α)
    (lowC highC : String) : String :=
  if v < low then lowC else if high < v then highC else "orange"

/-- The colors loop: one label per pH value. -/
noncomputable def colorSeries (c : Config) : List String :=
  (phRealSeries c).map (fun v =>
    classifyColor (((indicatorRange c.indicator).1 : ℚ) : ℝ)
      (((indicatorRange c.indicator).2 : ℚ) : ℝ) v
      (indicatorLowColor c.indicator) (indicatorHighColor c.indicator))

/-- The body of the conductivity loop of src/app.py (lines 108-118)
for a single volume `V`. -/
def conductivityAt (c : Config) (V : ℚ) : ℚ :=
  match c.sampleStrength, c.titrantStrength with
  | .strong, .strong =>
    if V < c.sampleVol then 10 - 0.1 * V
    else if V = c.sampleVol then 5
    else 5 + 0.15 * (V - c.sampleVol)
  | _, _ => 5 + 0.02 * (V - c.sampleVol)

/-- The conductivity loop: one value per volume. -/
def conductivitySeries (c : Config) : List ℚ :=
  (volumeSeries c.stepSize).map (conductivityAt c)

/-- Concrete config with the UI default values: strong acid sample,
strong base titrant, 0.1 mol/L both, 25 mL sample, 0.5 mL steps. -/
def cfgSS : Config :=
  ⟨Strength.strong, Strength.strong, 1/10, 25, 1/10, 1/2,
    IndicatorName.phenolphthalein⟩

/-- Concrete config with the default values but a weak acid sample. -/
def cfgWS : Config :=
  ⟨Strength.weak, Strength.strong, 1/10, 25, 1/10, 1/2,
    IndicatorName.phenolphthalein⟩

/-- Concrete config with the default values but a weak base titrant. -/
def cfgSW : Config :=
  ⟨Strength.strong, Strength.weak, 1/10, 25, 1/10, 1/2,
    IndicatorName.phenolphthalein⟩

/-- Concrete strong/strong config whose equivalence point falls a tiny
amount above the sampled volume 25 mL: the acid-side pH right before
the sign change exceeds the base-side pH right after it. -/
def cfgNearEq : Config :=
  ⟨Strength.strong, Strength.strong, 5/2 + 1/100000000000000, 10, 1, 1,
    IndicatorName.phenolphthalein⟩

/-- Concrete valid weak-sample config with a 300 mL sample volume. -/
def cfgBigVol : Config :=
  ⟨Strength.weak, Strength.strong, 1/10, 300, 1/10, 1/2,
    IndicatorName.phenolphthalein⟩

theorem mem_volumeSeries {step V : ℚ} :
    V ∈ volumeSeries step ↔ ∃ k, k < numVols step ∧ (k : ℚ) * step = V := by
  constructor
  · intro h
    obtain ⟨k, hk, hV⟩ := List.mem_map.mp h
    exact ⟨k, List.mem_range.mp hk, hV⟩
  · rintro ⟨k, hk, hV⟩
    exact List.mem_map.mpr ⟨k, List.mem_range.mpr hk, hV⟩

theorem length_volumeSeries (step : ℚ) :
    (volumeSeries step).length = numVols step := by
  rw [volumeSeries, List.length_map, List.length_range]

theorem numVols_eq_of_pos {step : ℚ} (hs : 0 < step) :
    numVols step = (Int.ceil ((50 : ℚ) / step)).toNat + 1 := by
  have hdiv : (50 + step) / step = 50 / step + 1 := by
    field_simp
  have hpos : (0 : ℤ) ≤ Int.ceil ((50 : ℚ) / step) :=
    le_of_lt (Int.ceil_pos.mpr (by positivity))
  unfold numVols
  rw [hdiv, Int.ceil_add_one]
  omega

theorem volumeSeries_nonneg {step V : ℚ} (hs : 0 < step)
    (hV : V ∈ volumeSeries step) : 0 ≤ V := by
  obtain ⟨k, -, hk⟩ := mem_volumeSeries.mp hV
  subst hk
  positivity

theorem volumeSeries_lt {step V : ℚ} (hs : 0 < step)
    (hV : V ∈ volumeSeries step) : V < 50 + step := by
  obtain ⟨k, hklt, hk⟩ := mem_volumeSeries.mp hV
  subst hk
  have hk1 : (k : ℤ) + 1 ≤ Int.ceil ((50 + step) / step) := by
    have : (k : ℤ) < Int.ceil ((50 + step) / step) := by
      have hle : (0 : ℤ) ≤ Int.ceil ((50 + step) / step) := by
        exact le_of_lt (Int.ceil_pos.mpr (by positivity))
      unfold numVols at hklt
      omega
    omega
  have hklt2 : (k : ℚ) < (50 + step) / step := by
    have hceil : ((Int.ceil ((50 + step) / step) : ℤ) : ℚ) < (50 + step) / step + 1 :=
      Int.ceil_lt_add_one _
    have hcast : ((k : ℤ) : ℚ) + 1 ≤ ((Int.ceil ((50 + step) / step) : ℤ) : ℚ) := by
      exact_mod_cast hk1
    push_cast at hcast
    linarith
  calc (k : ℚ) * step < ((50 + step) / step) * step := by
        exact mul_lt_mul_of_pos_right hklt2 hs
    _ = 50 + step := by field_simp

theorem get_volumeSeries (step : ℚ) (i : ℕ) (hi : i < (volumeSeries step).length) :
    (volumeSeries step).get ⟨i, hi⟩ = (i : ℚ) * step := by
  simp [volumeSeries, List.get_eq_getElem, List.getElem_map, List.getElem_range]

/-- Claim C2: the VolumeSeries is the sequence 0, stepSize, 2·stepSize, …,
each value staying below (in particular not exceeding) 50 + stepSize, so
that the series may include one value beyond 50; its length is exactly
⌈50/stepSize⌉ + 1 (hence "⌈50/stepSize⌉ + 1 or + 2" holds); with
stepSize = 0.5 the value 50.0 is included (50.5 is not generated in
exact arithmetic, which the claim allows via "possibly"), and with
stepSize = 0.3 a value beyond 50 is indeed generated. -/
theorem C2_volume_series_shape (step : ℚ) (h1 : 0.1 ≤ step) (h2 : step ≤ 5) :
    ((volumeSeries step).length = (Int.ceil ((50 : ℚ) / step)).toNat + 1) ∧
    (∀ i, ∀ hi : i < (volumeSeries step).length,
      (volumeSeries step).get ⟨i, hi⟩ = (i : ℚ) * step) ∧
    (∀ V ∈ volumeSeries step, V < 50 + step) ∧
    ((50 : ℚ) ∈ volumeSeries 0.5) ∧
    (∃ V ∈ volumeSeries 0.3, 50 < V) := by
  have hs : 0 < step := lt_of_lt_of_le (by norm_num) h1
  refine ⟨?_, ?_, ?_, ?_, ?_⟩
  · rw [length_volumeSeries, numVols_eq_of_pos hs]
  · intro i hi
    exact get_volumeSeries step i hi
  · intro V hV
    exact volumeSeries_lt hs hV
  · refine mem_volumeSeries.mpr ⟨100, ?_, by norm_num⟩
    rw [numVols]
    norm_num
  · refine ⟨(167 : ℚ) * 0.3, mem_volumeSeries.mpr ⟨167, ?_, rfl⟩, by norm_num⟩
    rw [numVols]
    have h : Int.ceil ((50 + (0.3 : ℚ)) / 0.3) = 168 := by
      rw [Int.ceil_eq_iff]
      norm_num
    rw [h]
    norm_num

/-- Witness for C2 at the default step size 0.5: the hypotheses hold and
the series has ⌈50/0.5⌉ + 1 = 101 elements. -/
theorem C2_volume_series_shape_witness :
    (0.1 ≤ (0.5 : ℚ)) ∧ ((0.5 : ℚ) ≤ 5) ∧
      (volumeSeries 0.5).length = (Int.ceil ((50 : ℚ) / 0.5)).toNat + 1 :=
  ⟨by norm_num, by norm_num,
    (C2_volume_series_shape 0.5 (by norm_num) (by norm_num)).1⟩

theorem conductivityAt_strong_strong {c : Config}
    (hs : c.sampleStrength = Strength.strong)
    (ht : c.titrantStrength = Strength.strong) (V : ℚ) :
    conductivityAt c V =
      if V < c.sampleVol then 10 - 0.1 * V
      else if V = c.sampleVol then 5
      else 5 + 0.15 * (V - c.sampleVol) := by
  rcases c with ⟨css, cts, sc, sv, tc, ss, ind⟩
  simp only at hs ht
  subst hs
  subst ht
  rfl

theorem conductivityAt_any_weak {c : Config}
    (hw : c.sampleStrength = Strength.weak ∨ c.titrantStrength = Strength.weak)
    (V : ℚ) :
    conductivityAt c V = 5 + 0.02 * (V - c.sampleVol) := by
  rcases c with ⟨css, cts, sc, sv, tc, ss, ind⟩
  simp only at hw
  rcases hw with h | h
  · subst h
    cases cts <;> rfl
  · subst h
    cases css <;> rfl

theorem computePH_strong_strong {c : Config}
    (hs : c.sampleStrength = Strength.strong)
    (ht : c.titrantStrength = Strength.strong) (V : ℚ) :
    computePH c V =
      (if 0 < c.sampleConc * c.sampleVol / 1000 - c.titrantConc * V / 1000 then
        PHFormula.negLog10 ((c.sampleConc * c.sampleVol / 1000 -
          c.titrantConc * V / 1000) / (c.sampleVol + V) * 1000)
      else if c.sampleConc * c.sampleVol / 1000 - c.titrantConc * V / 1000 < 0 then
        PHFormula.addLog10 14 (|c.sampleConc * c.sampleVol / 1000 -
          c.titrantConc * V / 1000| / (c.sampleVol + V) * 1000)
      else PHFormula.const 7) := by
  rcases c with ⟨css, cts, sc, sv, tc, ss, ind⟩
  simp only at hs ht
  subst hs
  subst ht
  rfl

theorem computePH_weak_strong {c : Config}
    (hs : c.sampleStrength = Strength.weak)
    (ht : c.titrantStrength = Strength.strong) (V : ℚ) :
    computePH c V =
      (if c.titrantConc * V / 1000 < c.sampleConc * c.sampleVol / 1000 then
        PHFormula.addLog10 pKaAcetic ((c.titrantConc * V / 1000) /
          (c.sampleConc * c.sampleVol / 1000 - c.titrantConc * V / 1000))
      else if c.titrantConc * V / 1000 = c.sampleConc * c.sampleVol / 1000 then
        PHFormula.const pKaAcetic
      else
        PHFormula.addLog10 14 ((c.titrantConc * V / 1000 -
          c.sampleConc * c.sampleVol / 1000) / (c.sampleVol + V) * 1000)) := by
  rcases c with ⟨css, cts, sc, sv, tc, ss, ind⟩
  simp only at hs ht
  subst hs
  subst ht
  rfl

theorem computePH_strong_weak {c : Config}
    (hs : c.sampleStrength = Strength.strong)
    (ht : c.titrantStrength = Strength.weak) (V : ℚ) :
    computePH c V =
      (if c.titrantConc * V / 1000 = 0 then
        PHFormula.negLog10 c.sampleConc
      else
        PHFormula.addLog10Sqrt 14 (kbAmmonia *
          ((c.titrantConc * V / 1000) / (c.sampleVol + V) * 1000))) := by
  rcases c with ⟨css, cts, sc, sv, tc, ss, ind⟩
  simp only at hs ht
  subst hs
  subst ht
  rfl

theorem computePH_weak_weak {c : Config}
    (hs : c.sampleStrength = Strength.weak)
    (ht : c.titrantStrength = Strength.weak) (V : ℚ) :
    computePH c V = PHFormula.const 7 := by
  rcases c with ⟨css, cts, sc, sv, tc, ss, ind⟩
  simp only at hs ht
  subst hs
  subst ht
  rfl

theorem zero_mem_volumeSeries {step : ℚ} (hs : 0 < step) :
    (0 : ℚ) ∈ volumeSeries step := by
  refine mem_volumeSeries.mpr ⟨0, ?_, by norm_num⟩
  rw [numVols_eq_of_pos hs]
  omega

/-- Claim C7: for valid configs and sampled volumes, the conductivity is
10 − 0.1·V, exactly 5, or 5 + 0.15·(V − sampleVol) in the Strong/Strong
case according as V <, =, > sampleVol, and 5 + 0.02·(V − sampleVol)
whenever a reagent is weak; in the Strong/Strong case the value at V = 0
is exactly 10 and at V = sampleVol exactly 5; and the conductivity is a
function of the strengths, the sample volume and V alone (so no
conductivity value depends on any pH value). -/
theorem C7_conductivity_values (c : Config) (hv : validConfig c) (V : ℚ)
    (hV : V ∈ volumeSeries c.stepSize) :
    (c.sampleStrength = Strength.strong → c.titrantStrength = Strength.strong →
      (V < c.sampleVol → conductivityAt c V = 10 - 0.1 * V) ∧
      (V = c.sampleVol → conductivityAt c V = 5) ∧
      (c.sampleVol < V → conductivityAt c V = 5 + 0.15 * (V - c.sampleVol)) ∧
      conductivityAt c 0 = 10 ∧ conductivityAt c c.sampleVol = 5) ∧
    ((c.sampleStrength = Strength.weak ∨ c.titrantStrength = Strength.weak) →
      conductivityAt c V = 5 + 0.02 * (V - c.sampleVol)) ∧
    (∀ c2 : Config, c2.sampleStrength = c.sampleStrength →
      c2.titrantStrength = c.titrantStrength → c2.sampleVol = c.sampleVol →
      conductivityAt c2 V = conductivityAt c V) := by
  obtain ⟨hc1, hc2, hc3, hc4, hc5⟩ := hv
  refine ⟨fun hs ht => ?_, fun hw => conductivityAt_any_weak hw V,
    fun c2 e1 e2 e3 => ?_⟩
  · refine ⟨fun h => ?_, fun h => ?_, fun h => ?_, ?_, ?_⟩
    · rw [conductivityAt_strong_strong hs ht V, if_pos h]
    · rw [conductivityAt_strong_strong hs ht V,
        if_neg (by rw [h]; exact lt_irrefl _), if_pos h]
    · rw [conductivityAt_strong_strong hs ht V,
        if_neg (not_lt.mpr (le_of_lt h)), if_neg (ne_of_gt h)]
    · rw [conductivityAt_strong_strong hs ht 0, if_pos (by linarith)]
      norm_num
    · rw [conductivityAt_strong_strong hs ht c.sampleVol,
        if_neg (lt_irrefl _), if_pos rfl]
  · rcases c with ⟨css, cts, sc, sv, tc, ss, ind⟩
    rcases c2 with ⟨cs2, ct2, sc2, sv2, tc2, ss2, ind2⟩
    simp only at e1 e2 e3
    subst e1
    subst e2
    subst e3
    rfl

/-- Witness for C7 at the default strong/strong config and V = 0:
conductivity at 0 is exactly 10. -/
theorem C7_conductivity_values_witness :
    validConfig cfgSS ∧ (0 : ℚ) ∈ volumeSeries cfgSS.stepSize ∧
      conductivityAt cfgSS 0 = 10 := by
  have hv : validConfig cfgSS := by norm_num [validConfig, cfgSS]
  have hmem : (0 : ℚ) ∈ volumeSeries cfgSS.stepSize :=
    zero_mem_volumeSeries (by norm_num [cfgSS])
  exact ⟨hv, hmem,
    ((C7_conductivity_values cfgSS hv 0 hmem).1 rfl rfl).2.2.2.1⟩

/-- Claim C9: each derived series (symbolic pH, real pH, conductivity,
colors) has exactly the length of the volume series, and its i-th
element is the corresponding function of the i-th volume (resp. i-th
pH value), in order. -/
theorem C9_series_lengths (c : Config) (hv : validConfig c) :
    (phSeries c).length = (volumeSeries c.stepSize).length ∧
    (phRealSeries c).length = (volumeSeries c.stepSize).length ∧
    (conductivitySeries c).length = (volumeSeries c.stepSize).length ∧
    (colorSeries c).length = (volumeSeries c.stepSize).length ∧
    (∀ i, ∀ hi : i < (volumeSeries c.stepSize).length,
      ∀ hp : i < (phSeries c).length,
      (phSeries c).get ⟨i, hp⟩ = computePH c ((volumeSeries c.stepSize).get ⟨i, hi⟩)) ∧
    (∀ i, ∀ hi : i < (volumeSeries c.stepSize).length,
      ∀ hk : i < (conductivitySeries c).length,
      (conductivitySeries c).get ⟨i, hk⟩ =
        conductivityAt c ((volumeSeries c.stepSize).get ⟨i, hi⟩)) ∧
    (∀ i, ∀ hp : i < (phRealSeries c).length, ∀ hk : i < (colorSeries c).length,
      (colorSeries c).get ⟨i, hk⟩ =
        classifyColor (((indicatorRange c.indicator).1 : ℚ) : ℝ)
          (((indicatorRange c.indicator).2 : ℚ) : ℝ)
          ((phRealSeries c).get ⟨i, hp⟩)
          (indicatorLowColor c.indicator) (indicatorHighColor c.indicator)) := by
  refine ⟨?_, ?_, ?_, ?_, ?_, ?_, ?_⟩ <;>
    simp [phSeries, phRealSeries, conductivitySeries, colorSeries,
      List.get_eq_getElem, List.getElem_map]

/-- Witness for C9 at the default strong/strong config. -/
theorem C9_series_lengths_witness :
    validConfig cfgSS ∧ (phSeries cfgSS).length = (volumeSeries cfgSS.stepSize).length := by
  have hv : validConfig cfgSS := by norm_num [validConfig, cfgSS]
  exact ⟨hv, (C9_series_lengths cfgSS hv).1⟩

/-- Claim C10: with any weak reagent the conductivity at V is
5 + 0.02·(V − sampleVol), which is strictly negative whenever
sampleVol − V > 250; a valid config with sampleVol = 300 yields
conductivity −1 at the sampled volume V = 0. -/
theorem C10_conductivity_can_be_negative (c : Config) (hv : validConfig c)
    (hw : c.sampleStrength = Strength.weak ∨ c.titrantStrength = Strength.weak)
    (V : ℚ) (hmem : V ∈ volumeSeries c.stepSize)
    (hfar : 250 < c.sampleVol - V) :
    conductivityAt c V = 5 + 0.02 * (V - c.sampleVol) ∧
    conductivityAt c V < 0 ∧
    (validConfig cfgBigVol ∧ conductivityAt cfgBigVol 0 = -1) := by
  have he := conductivityAt_any_weak hw V
  refine ⟨he, ?_, ?_, ?_⟩
  · rw [he]
    have h1 : V - c.sampleVol < -250 := by linarith
    have h2 : (0.02 : ℚ) * (V - c.sampleVol) < 0.02 * (-250) :=
      mul_lt_mul_of_pos_left h1 (by norm_num)
    norm_num at h2
    linarith
  · norm_num [validConfig, cfgBigVol]
  · rw [conductivityAt_any_weak (Or.inl rfl) 0]
    norm_num [cfgBigVol]

/-- Witness for C10 at the 300 mL weak-sample config and V = 0. -/
theorem C10_conductivity_can_be_negative_witness :
    validConfig cfgBigVol ∧ conductivityAt cfgBigVol 0 < 0 := by
  have hv : validConfig cfgBigVol := by norm_num [validConfig, cfgBigVol]
  have hmem : (0 : ℚ) ∈ volumeSeries cfgBigVol.stepSize :=
    zero_mem_volumeSeries (by norm_num [cfgBigVol])
  refine ⟨hv, ?_⟩
  have h := C10_conductivity_can_be_negative cfgBigVol hv (Or.inl rfl) 0 hmem
    (by norm_num [cfgBigVol])
  exact h.2.1

theorem classifyColor_spec {α : Type} [LinearOrder α] (low high v : α)
    (lowC highC : String) (hlh : low ≤ high) (h1 : lowC ≠ highC)
    (h2 : "orange" ≠ lowC) (h3 : "orange" ≠ highC) :
    (classifyColor low high v lowC highC = lowC ↔ v < low) ∧
    (classifyColor low high v lowC highC = highC ↔ high < v) ∧
    (classifyColor low high v lowC highC = "orange" ↔ low ≤ v ∧ v ≤ high) := by
  unfold classifyColor
  split_ifs with ha hb
  · refine ⟨by simp [ha], ?_, ?_⟩
    · constructor
      · intro h
        exact absurd h h1
      · intro h
        exact absurd h (not_lt.mpr (le_trans (le_of_lt ha) hlh))
    · constructor
      · intro h
        exact absurd h.symm h2
      · intro h
        exact absurd h.1 (not_le.mpr ha)
  · refine ⟨?_, by simp [hb], ?_⟩
    · constructor
      · intro h
        exact absurd h.symm h1
      · intro h
        exact absurd h ha
    · constructor
      · intro h
        exact absurd h.symm h3
      · intro h
        exact absurd h.2 (not_le.mpr hb)
  · refine ⟨?_, ?_, ?_⟩
    · constructor
      · intro h
        exact absurd h h2
      · intro h
        exact absurd h ha
    · constructor
      · intro h
        exact absurd h h3
      · intro h
        exact absurd h hb
    · simp [not_lt.mp ha, not_lt.mp hb]

/-- Claim C8: the classified color for a pH value v is the indicator's
low color iff v < low, the high color iff v > high, and the fixed
label "orange" (distinct from both endpoint colors) iff
low ≤ v ≤ high; for Phenolphthalein the pH values 8.2 and 10.0 both
classify as "orange". -/
theorem C8_color_classification (c : Config) (v : ℝ) :
    (classifyColor (((indicatorRange c.indicator).1 : ℚ) : ℝ)
        (((indicatorRange c.indicator).2 : ℚ) : ℝ) v
        (indicatorLowColor c.indicator) (indicatorHighColor c.indicator) =
      indicatorLowColor c.indicator ↔
        v < (((indicatorRange c.indicator).1 : ℚ) : ℝ)) ∧
    (classifyColor (((indicatorRange c.indicator).1 : ℚ) : ℝ)
        (((indicatorRange c.indicator).2 : ℚ) : ℝ) v
        (indicatorLowColor c.indicator) (indicatorHighColor c.indicator) =
      indicatorHighColor c.indicator ↔
        (((indicatorRange c.indicator).2 : ℚ) : ℝ) < v) ∧
    (classifyColor (((indicatorRange c.indicator).1 : ℚ) : ℝ)
        (((indicatorRange c.indicator).2 : ℚ) : ℝ) v
        (indicatorLowColor c.indicator) (indicatorHighColor c.indicator) =
      "orange" ↔
        ((((indicatorRange c.indicator).1 : ℚ) : ℝ) ≤ v ∧
          v ≤ (((indicatorRange c.indicator).2 : ℚ) : ℝ))) ∧
    "orange" ≠ indicatorLowColor c.indicator ∧
    "orange" ≠ indicatorHighColor c.indicator ∧
    classifyColor (((8.2 : ℚ) : ℝ)) (((10.0 : ℚ) : ℝ)) (((8.2 : ℚ) : ℝ))
      "white" "pink" = "orange" ∧
    classifyColor (((8.2 : ℚ) : ℝ)) (((10.0 : ℚ) : ℝ)) (((10.0 : ℚ) : ℝ))
      "white" "pink" = "orange" := by
  have hphen1 : classifyColor (((8.2 : ℚ) : ℝ)) (((10.0 : ℚ) : ℝ))
      (((8.2 : ℚ) : ℝ)) "white" "pink" = "orange" := by
    unfold classifyColor
    rw [if_neg (lt_irrefl _), if_neg (by push_cast; norm_num)]
  have hphen2 : classifyColor (((8.2 : ℚ) : ℝ)) (((10.0 : ℚ) : ℝ))
      (((10.0 : ℚ) : ℝ)) "white" "pink" = "orange" := by
    unfold classifyColor
    rw [if_neg (by push_cast; norm_num), if_neg (lt_irrefl _)]
  have hle : (indicatorRange c.indicator).1 ≤ (indicatorRange c.indicator).2 := by
    cases c.indicator <;> norm_num [indicatorRange]
  have hne1 : indicatorLowColor c.indicator ≠ indicatorHighColor c.indicator := by
    cases c.indicator <;> simp [indicatorLowColor, indicatorHighColor]
  have hne2 : "orange" ≠ indicatorLowColor c.indicator := by
    cases c.indicator <;> simp [indicatorLowColor]
  have hne3 : "orange" ≠ indicatorHighColor c.indicator := by
    cases c.indicator <;> simp [indicatorHighColor]
  have h := classifyColor_spec (((indicatorRange c.indicator).1 : ℚ) : ℝ)
    (((indicatorRange c.indicator).2 : ℚ) : ℝ) v
    (indicatorLowColor c.indicator) (indicatorHighColor c.indicator)
    (Rat.cast_le.mpr hle) hne1 hne2 hne3
  exact ⟨h.1, h.2.1, h.2.2, hne2, hne3, hphen1, hphen2⟩

/-- Witness for C8: the Phenolphthalein boundary value 8.2 classifies
as the transition label. -/
theorem C8_color_classification_witness :
    classifyColor (((8.2 : ℚ) : ℝ)) (((10.0 : ℚ) : ℝ)) (((8.2 : ℚ) : ℝ))
      "white" "pink" = "orange" :=
  (C8_color_classification cfgSS 9).2.2.2.2.2.1

/-- Claim C1: for valid Strong/Strong configs and sampled volumes V,
with excess = sampleConc·sampleVol/1000 − titrantConc·V/1000, the pH is
−log10(excess/V_total·1000) when excess > 0, 14 + log10(|excess|/V_total·1000)
when excess < 0, and exactly 7 when excess = 0; at the exact equivalence
volume V = sampleVol·sampleConc/titrantConc the pH is exactly 7. -/
theorem C1_strong_strong_pH (c : Config) (hv : validConfig c)
    (hs : c.sampleStrength = Strength.strong)
    (ht : c.titrantStrength = Strength.strong)
    (V : ℚ) (hmem : V ∈ volumeSeries c.stepSize) :
    (0 < c.sampleConc * c.sampleVol / 1000 - c.titrantConc * V / 1000 →
      (computePH c V).toReal =
        -Real.logb 10 (((c.sampleConc * c.sampleVol / 1000 -
          c.titrantConc * V / 1000) / (c.sampleVol + V) * 1000 : ℚ) : ℝ)) ∧
    (c.sampleConc * c.sampleVol / 1000 - c.titrantConc * V / 1000 < 0 →
      (computePH c V).toReal =
        14 + Real.logb 10 ((|c.sampleConc * c.sampleVol / 1000 -
          c.titrantConc * V / 1000| / (c.sampleVol + V) * 1000 : ℚ) : ℝ)) ∧
    (c.sampleConc * c.sampleVol / 1000 - c.titrantConc * V / 1000 = 0 →
      (computePH c V).toReal = 7) ∧
    (computePH c (c.sampleVol * c.sampleConc / c.titrantConc)).toReal = 7 := by
  obtain ⟨hc1, hc2, hc3, hc4, hc5⟩ := hv
  refine ⟨fun h => ?_, fun h => ?_, fun h => ?_, ?_⟩
  · rw [computePH_strong_strong hs ht V, if_pos h]
    simp [PHFormula.toReal]
  · rw [computePH_strong_strong hs ht V, if_neg (by linarith), if_pos h]
    simp [PHFormula.toReal]
  · rw [computePH_strong_strong hs ht V, if_neg (by rw [h]; exact lt_irrefl _),
      if_neg (by rw [h]; exact lt_irrefl _)]
    simp [PHFormula.toReal]
  · have htc : c.titrantConc ≠ 0 := by linarith
    have hexc : c.sampleConc * c.sampleVol / 1000 -
        c.titrantConc * (c.sampleVol * c.sampleConc / c.titrantConc) / 1000 = 0 := by
      field_simp
      ring
    rw [computePH_strong_strong hs ht (c.sampleVol * c.sampleConc / c.titrantConc),
      hexc, if_neg (lt_irrefl _), if_neg (lt_irrefl _)]
    simp [PHFormula.toReal]

/-- Witness for C1 at the default strong/strong config: the equivalence
volume 25·0.1/0.1 = 25 gives pH exactly 7. -/
theorem C1_strong_strong_pH_witness :
    validConfig cfgSS ∧
      (computePH cfgSS (cfgSS.sampleVol * cfgSS.sampleConc / cfgSS.titrantConc)).toReal = 7 := by
  have hv : validConfig cfgSS := by norm_num [validConfig, cfgSS]
  exact ⟨hv, (C1_strong_strong_pH cfgSS hv rfl rfl 0
    (zero_mem_volumeSeries (by norm_num [cfgSS]))).2.2.2⟩

/-- Claim C3: for valid Weak/Strong configs and sampled volumes, with
molesHA = sampleConc·sampleVol/1000 and molesOH = titrantConc·V/1000,
the pH is pKa + log10(molesOH/(molesHA − molesOH)) when molesOH < molesHA,
exactly pKa = 4.76 on exact equality, and 14 + log10((molesOH −
molesHA)/V_total·1000) when molesOH > molesHA; in the default weak/strong
scenario the pH at V = 12.5 is exactly 4.76. -/
theorem C3_weak_strong_pH (c : Config) (hv : validConfig c)
    (hs : c.sampleStrength = Strength.weak)
    (ht : c.titrantStrength = Strength.strong)
    (V : ℚ) (hmem : V ∈ volumeSeries c.stepSize) :
    (c.titrantConc * V / 1000 < c.sampleConc * c.sampleVol / 1000 →
      (computePH c V).toReal = 4.76 +
        Real.logb 10 (((c.titrantConc * V / 1000) /
          (c.sampleConc * c.sampleVol / 1000 - c.titrantConc * V / 1000) : ℚ) : ℝ)) ∧
    (c.titrantConc * V / 1000 = c.sampleConc * c.sampleVol / 1000 →
      (computePH c V).toReal = 4.76) ∧
    (c.sampleConc * c.sampleVol / 1000 < c.titrantConc * V / 1000 →
      (computePH c V).toReal = 14 +
        Real.logb 10 (((c.titrantConc * V / 1000 -
          c.sampleConc * c.sampleVol / 1000) / (c.sampleVol + V) * 1000 : ℚ) : ℝ)) ∧
    (computePH cfgWS (25/2)).toReal = 4.76 := by
  have hhalf : (computePH cfgWS (25/2)).toReal = 4.76 := by
    rw [computePH_weak_strong rfl rfl (25/2), if_pos (by norm_num [cfgWS])]
    have harg : ((cfgWS.titrantConc * (25/2) / 1000) /
        (cfgWS.sampleConc * cfgWS.sampleVol / 1000 -
          cfgWS.titrantConc * (25/2) / 1000) : ℚ) = 1 := by
      norm_num [cfgWS]
    rw [PHFormula.toReal, harg]
    rw [Rat.cast_one, Real.logb_one]
    norm_num [pKaAcetic]
  refine ⟨fun h => ?_, fun h => ?_, fun h => ?_, hhalf⟩
  · rw [computePH_weak_strong hs ht V, if_pos h]
    rw [PHFormula.toReal]
    norm_num [pKaAcetic]
  · rw [computePH_weak_strong hs ht V, if_neg (by rw [h]; exact lt_irrefl _),
      if_pos h]
    rw [PHFormula.toReal]
    norm_num [pKaAcetic]
  · rw [computePH_weak_strong hs ht V, if_neg (by linarith),
      if_neg (by linarith), PHFormula.toReal]
    norm_num

/-- Witness for C3 at the default weak/strong config: half-neutralization
at V = 12.5 gives pH exactly 4.76. -/
theorem C3_weak_strong_pH_witness :
    validConfig cfgWS ∧ (computePH cfgWS (25/2)).toReal = 4.76 := by
  have hv : validConfig cfgWS := by norm_num [validConfig, cfgWS]
  exact ⟨hv, (C3_weak_strong_pH cfgWS hv rfl rfl 0
    (zero_mem_volumeSeries (by norm_num [cfgWS]))).2.2.2⟩

/-- Claim C4: for valid Strong/Weak configs and sampled volumes, when
molesB = titrantConc·V/1000 is zero the pH is −log10(sampleConc) (no
dilution by the sample volume), and otherwise the pH is the literal
14 + log10(sqrt(1.8e-5·(molesB/V_total·1000))). -/
theorem C4_strong_weak_pH (c : Config) (hv : validConfig c)
    (hs : c.sampleStrength = Strength.strong)
    (ht : c.titrantStrength = Strength.weak)
    (V : ℚ) (hmem : V ∈ volumeSeries c.stepSize) :
    (c.titrantConc * V / 1000 = 0 →
      (computePH c V).toReal = -Real.logb 10 ((c.sampleConc : ℝ))) ∧
    (c.titrantConc * V / 1000 ≠ 0 →
      (computePH c V).toReal = 14 + Real.logb 10 (Real.sqrt
        ((1.8e-5 * ((c.titrantConc * V / 1000) / (c.sampleVol + V) * 1000) : ℚ) : ℝ))) := by
  refine ⟨fun h => ?_, fun h => ?_⟩
  · rw [computePH_strong_weak hs ht V, if_pos h, PHFormula.toReal]
  · rw [computePH_strong_weak hs ht V, if_neg h, PHFormula.toReal]
    norm_num [kbAmmonia]

/-- Witness for C4 at the default strong/weak config and V = 0: the pH
is −log10(sampleConc) with no dilution. -/
theorem C4_strong_weak_pH_witness :
    validConfig cfgSW ∧ (computePH cfgSW 0).toReal =
      -Real.logb 10 ((cfgSW.sampleConc : ℝ)) := by
  have hv : validConfig cfgSW := by norm_num [validConfig, cfgSW]
  exact ⟨hv, (C4_strong_weak_pH cfgSW hv rfl rfl 0
    (zero_mem_volumeSeries (by norm_num [cfgSW]))).1 (by norm_num [cfgSW])⟩

/-- Claim C5 is false as stated: at the valid default weak/strong config
the sampled volume V = 0 takes the molesOH < molesHA branch with
molesA = 0, so the argument handed to log10 is exactly 0, not strictly
positive. -/
theorem C5_log_positivity_counterexample :
    validConfig cfgWS ∧ (0 : ℚ) ∈ volumeSeries cfgWS.stepSize ∧
      computePH cfgWS 0 = PHFormula.addLog10 pKaAcetic 0 ∧
      ¬ (∀ x ∈ (computePH cfgWS 0).logArgs, 0 < x) := by
  have hv : validConfig cfgWS := by norm_num [validConfig, cfgWS]
  have hmem : (0 : ℚ) ∈ volumeSeries cfgWS.stepSize :=
    zero_mem_volumeSeries (by norm_num [cfgWS])
  have hc : computePH cfgWS 0 = PHFormula.addLog10 pKaAcetic 0 := by
    rw [computePH_weak_strong rfl rfl 0, if_pos (by norm_num [cfgWS])]
    have harg : (cfgWS.titrantConc * 0 / 1000) /
        (cfgWS.sampleConc * cfgWS.sampleVol / 1000 - cfgWS.titrantConc * 0 / 1000) =
          (0 : ℚ) := by
      norm_num [cfgWS]
    rw [harg]
  refine ⟨hv, hmem, hc, fun hall => ?_⟩
  have h0 : (0 : ℚ) ∈ (computePH cfgWS 0).logArgs := by
    rw [hc]
    simp [PHFormula.logArgs]
  exact lt_irrefl 0 (hall 0 h0)

/-- Claim C5 amended: for every valid config and sampled volume V, every
argument handed to log10 is strictly positive, except in the
Weak/Strong branch at V = 0, where the single argument is exactly 0
(for the Strong/Weak branch `logArgs` records the radicand, whose sign
agrees with that of the actual log10 argument, its square root). -/
theorem C5_log_positivity_amended (c : Config) (hv : validConfig c)
    (V : ℚ) (hmem : V ∈ volumeSeries c.stepSize) :
    (¬ (c.sampleStrength = Strength.weak ∧ c.titrantStrength = Strength.strong ∧
        V = 0) → ∀ x ∈ (computePH c V).logArgs, 0 < x) ∧
    (c.sampleStrength = Strength.weak → c.titrantStrength = Strength.strong →
      V = 0 → (computePH c V).logArgs = [0]) := by
  obtain ⟨hc1, hc2, hc3, hc4, hc5⟩ := hv
  have hsc : (0 : ℚ) < c.sampleConc := by linarith
  have htc : (0 : ℚ) < c.titrantConc := by linarith
  have hsv : (0 : ℚ) < c.sampleVol := by linarith
  have hstep : (0 : ℚ) < c.stepSize := by linarith
  have h0V : (0 : ℚ) ≤ V := volumeSeries_nonneg hstep hmem
  have hVt : (0 : ℚ) < c.sampleVol + V := by linarith
  have hmB : (0 : ℚ) ≤ c.titrantConc * V / 1000 := by positivity
  have hmHA : (0 : ℚ) < c.sampleConc * c.sampleVol / 1000 := by positivity
  cases hcs : c.sampleStrength <;> cases hct : c.titrantStrength
  · -- strong / strong
    refine ⟨fun hexc => ?_, fun h1 => absurd h1 (by simp)⟩
    rw [computePH_strong_strong hcs hct V]
    split_ifs with h1 h2
    · intro x hx
      rw [PHFormula.logArgs] at hx
      rw [List.mem_singleton] at hx
      subst hx
      have := div_pos h1 hVt
      positivity
    · intro x hx
      rw [PHFormula.logArgs] at hx
      rw [List.mem_singleton] at hx
      subst hx
      have habs : (0 : ℚ) < |c.sampleConc * c.sampleVol / 1000 -
          c.titrantConc * V / 1000| := abs_pos.mpr (ne_of_lt h2)
      have := div_pos habs hVt
      positivity
    · intro x hx
      rw [PHFormula.logArgs] at hx
      exact absurd hx (List.not_mem_nil x)
  · -- strong / weak
    refine ⟨fun hexc => ?_, fun h1 => absurd h1 (by simp)⟩
    rw [computePH_strong_weak hcs hct V]
    split_ifs with h1
    · intro x hx
      rw [PHFormula.logArgs] at hx
      rw [List.mem_singleton] at hx
      subst hx
      exact hsc
    · intro x hx
      rw [PHFormula.logArgs] at hx
      rw [List.mem_singleton] at hx
      subst hx
      have hmBpos : (0 : ℚ) < c.titrantConc * V / 1000 :=
        lt_of_le_of_ne hmB (Ne.symm h1)
      have hkb : (0 : ℚ) < kbAmmonia := by norm_num [kbAmmonia]
      have := div_pos hmBpos hVt
      positivity
  · -- weak / strong
    constructor
    · intro hne
      have hVne : V ≠ 0 := by
        intro h0
        exact hne ⟨rfl, rfl, h0⟩
      have hVpos : (0 : ℚ) < V := lt_of_le_of_ne h0V (Ne.symm hVne)
      have hmOH : (0 : ℚ) < c.titrantConc * V / 1000 := by positivity
      rw [computePH_weak_strong hcs hct V]
      split_ifs with h1 h2
      · intro x hx
        rw [PHFormula.logArgs] at hx
        rw [List.mem_singleton] at hx
        subst hx
        exact div_pos hmOH (sub_pos.mpr h1)
      · intro x hx
        rw [PHFormula.logArgs] at hx
        exact absurd hx (List.not_mem_nil x)
      · intro x hx
        rw [PHFormula.logArgs] at hx
        rw [List.mem_singleton] at hx
        subst hx
        have hlt : c.sampleConc * c.sampleVol / 1000 < c.titrantConc * V / 1000 :=
          lt_of_le_of_ne (not_lt.mp h1) (Ne.symm h2)
        have := div_pos (sub_pos.mpr hlt) hVt
        positivity
    · intro h1 h2 h0
      subst h0
      have hzero : c.titrantConc * 0 / 1000 = 0 := by ring
      rw [computePH_weak_strong hcs hct 0, if_pos (by rw [hzero]; exact hmHA)]
      rw [PHFormula.logArgs]
      have harg : (c.titrantConc * 0 / 1000) /
          (c.sampleConc * c.sampleVol / 1000 - c.titrantConc * 0 / 1000) = 0 := by
        rw [hzero]
        simp
      rw [harg]
  · -- weak / weak
    refine ⟨fun hexc => ?_, fun h1 h2 => absurd h2 (by simp)⟩
    rw [computePH_weak_weak hcs hct V]
    intro x hx
    rw [PHFormula.logArgs] at hx
    exact absurd hx (List.not_mem_nil x)

/-- Witness for the amended C5 at the default strong/strong config and
V = 0: every log10 argument is strictly positive there. -/
theorem C5_log_positivity_amended_witness :
    validConfig cfgSS ∧ ∀ x ∈ (computePH cfgSS 0).logArgs, 0 < x := by
  have hv : validConfig cfgSS := by norm_num [validConfig, cfgSS]
  refine ⟨hv, (C5_log_positivity_amended cfgSS hv 0
    (zero_mem_volumeSeries (by norm_num [cfgSS]))).1 ?_⟩
  intro h
  have := h.1
  rw [show cfgSS.sampleStrength = Strength.strong from rfl] at this
  exact absurd this (by simp)

theorem phRealSeries_get (c : Config) (i : ℕ)
    (hi : i < (phRealSeries c).length) :
    (phRealSeries c).get ⟨i, hi⟩ = (computePH c ((i : ℚ) * c.stepSize)).toReal := by
  simp [phRealSeries, phSeries, volumeSeries, List.get_eq_getElem,
    List.getElem_map, List.getElem_range]

theorem nearEq_pH_at_25 :
    computePH cfgNearEq 25 = PHFormula.negLog10 (1 / 350000000000000) := by
  rw [computePH_strong_strong rfl rfl 25, if_pos (by norm_num [cfgNearEq])]
  have harg : (cfgNearEq.sampleConc * cfgNearEq.sampleVol / 1000 -
      cfgNearEq.titrantConc * 25 / 1000) / (cfgNearEq.sampleVol + 25) * 1000 =
        (1 / 350000000000000 : ℚ) := by
    norm_num [cfgNearEq]
  rw [harg]

theorem nearEq_pH_at_26 :
    computePH cfgNearEq 26 =
      PHFormula.addLog10 14 (9999999999999 / 360000000000000) := by
  rw [computePH_strong_strong rfl rfl 26, if_neg (by norm_num [cfgNearEq]),
    if_pos (by norm_num [cfgNearEq])]
  have harg : |cfgNearEq.sampleConc * cfgNearEq.sampleVol / 1000 -
      cfgNearEq.titrantConc * 26 / 1000| / (cfgNearEq.sampleVol + 26) * 1000 =
        (9999999999999 / 360000000000000 : ℚ) := by
    rw [abs_of_neg (by norm_num [cfgNearEq])]
    norm_num [cfgNearEq]
  rw [harg]

theorem nearEq_pH_drop :
    (computePH cfgNearEq 26).toReal < (computePH cfgNearEq 25).toReal := by
  rw [nearEq_pH_at_25, nearEq_pH_at_26]
  simp only [PHFormula.toReal]
  have hq1pos : (0 : ℝ) < ((1 / 350000000000000 : ℚ) : ℝ) := by norm_num
  have h1 : Real.logb 10 ((1 / 350000000000000 : ℚ) : ℝ) < -14 := by
    rw [Real.logb_lt_iff_lt_rpow (by norm_num) hq1pos]
    have hpow : (10 : ℝ) ^ (-14 : ℝ) = ((10 : ℝ) ^ (14 : ℕ))⁻¹ := by
      rw [show (-14 : ℝ) = -((14 : ℕ) : ℝ) by norm_num,
        Real.rpow_neg (by norm_num), Real.rpow_natCast]
    rw [hpow]
    norm_num
  have h2 : Real.logb 10 ((9999999999999 / 360000000000000 : ℚ) : ℝ) < 0 := by
    refine Real.logb_neg (by norm_num) (by norm_num) (by norm_num)
  linarith

/-- Claim C6 is false as stated: for the valid strong/strong config
cfgNearEq (whose equivalence point lies just above 25 mL), the sampled
volumes 25 and 26 occupy positions 25 < 26 in the series, yet the pH at
position 26 is strictly smaller than the pH at position 25: the series
is not non-decreasing. -/
theorem C6_monotonicity_counterexample :
    validConfig cfgNearEq ∧
    cfgNearEq.sampleStrength = Strength.strong ∧
    cfgNearEq.titrantStrength = Strength.strong ∧
    ¬ (∀ i j : ℕ, ∀ hi : i < (phRealSeries cfgNearEq).length,
        ∀ hj : j < (phRealSeries cfgNearEq).length, i < j →
        (phRealSeries cfgNearEq).get ⟨i, hi⟩ ≤
          (phRealSeries cfgNearEq).get ⟨j, hj⟩) := by
  have hlen : (phRealSeries cfgNearEq).length = 51 := by
    show (phRealSeries cfgNearEq).length = 51
    have h1 : (phRealSeries cfgNearEq).length = numVols cfgNearEq.stepSize := by
      simp [phRealSeries, phSeries, volumeSeries]
    rw [h1]
    rw [show cfgNearEq.stepSize = 1 from rfl, numVols]
    norm_num
    rfl
  refine ⟨by norm_num [validConfig, cfgNearEq], rfl, rfl, fun hall => ?_⟩
  have h25 : (25 : ℕ) < (phRealSeries cfgNearEq).length := by omega
  have h26 : (26 : ℕ) < (phRealSeries cfgNearEq).length := by omega
  have hle := hall 25 26 h25 h26 (by omega)
  rw [phRealSeries_get cfgNearEq 25 h25, phRealSeries_get cfgNearEq 26 h26] at hle
  rw [show ((25 : ℕ) : ℚ) * cfgNearEq.stepSize = 25 by norm_num [cfgNearEq],
    show ((26 : ℕ) : ℚ) * cfgNearEq.stepSize = 26 by norm_num [cfgNearEq]] at hle
  exact absurd hle (not_le.mpr nearEq_pH_drop)

/-- Claim C6 amended: for valid Strong/Strong configs the pH series is
strictly increasing while the acid stays in strict excess and strictly
increasing once the base is in strict excess, but need not be monotone
across the sign change of the excess (see the counterexample, where the
pH drops from one sampled volume to the next across the equivalence
point). -/
theorem C6_pH_strictMono_within_regions (c : Config) (hv : validConfig c)
    (hs : c.sampleStrength = Strength.strong)
    (ht : c.titrantStrength = Strength.strong)
    (V W : ℚ) (hVmem : V ∈ volumeSeries c.stepSize)
    (hWmem : W ∈ volumeSeries c.stepSize) (hVW : V < W) :
    (0 < c.sampleConc * c.sampleVol / 1000 - c.titrantConc * W / 1000 →
      (computePH c V).toReal < (computePH c W).toReal) ∧
    (c.sampleConc * c.sampleVol / 1000 - c.titrantConc * V / 1000 < 0 →
      (computePH c V).toReal < (computePH c W).toReal) := by
  obtain ⟨hc1, hc2, hc3, hc4, hc5⟩ := hv
  have htc : (0 : ℚ) < c.titrantConc := by linarith
  have hsc : (0 : ℚ) < c.sampleConc := by linarith
  have hsv : (0 : ℚ) < c.sampleVol := by linarith
  have hstep : (0 : ℚ) < c.stepSize := by linarith
  have h0V : (0 : ℚ) ≤ V := volumeSeries_nonneg hstep hVmem
  have hVt : (0 : ℚ) < c.sampleVol + V := by linarith
  have hWt : (0 : ℚ) < c.sampleVol + W := by linarith
  have htcVW : c.titrantConc * V < c.titrantConc * W :=
    mul_lt_mul_of_pos_left hVW htc
  constructor
  · -- both volumes still in acid excess
    intro hW
    have hV : 0 < c.sampleConc * c.sampleVol / 1000 - c.titrantConc * V / 1000 := by
      have : c.titrantConc * V / 1000 < c.titrantConc * W / 1000 := by linarith
      linarith
    rw [computePH_strong_strong hs ht V, computePH_strong_strong hs ht W,
      if_pos hV, if_pos hW]
    simp only [PHFormula.toReal]
    have heWV : c.sampleConc * c.sampleVol / 1000 - c.titrantConc * W / 1000 <
        c.sampleConc * c.sampleVol / 1000 - c.titrantConc * V / 1000 := by
      linarith
    have hdiv : (c.sampleConc * c.sampleVol / 1000 - c.titrantConc * W / 1000) /
        (c.sampleVol + W) < (c.sampleConc * c.sampleVol / 1000 -
          c.titrantConc * V / 1000) / (c.sampleVol + V) := by
      rw [div_lt_div_iff₀ hWt hVt]
      nlinarith [mul_lt_mul_of_pos_right heWV hVt,
        mul_lt_mul_of_pos_left (show c.sampleVol + V < c.sampleVol + W by linarith) hV]
    have hlt : (c.sampleConc * c.sampleVol / 1000 - c.titrantConc * W / 1000) /
        (c.sampleVol + W) * 1000 < (c.sampleConc * c.sampleVol / 1000 -
          c.titrantConc * V / 1000) / (c.sampleVol + V) * 1000 := by
      linarith
    have hargW : (0 : ℚ) < (c.sampleConc * c.sampleVol / 1000 -
        c.titrantConc * W / 1000) / (c.sampleVol + W) * 1000 := by
      have := div_pos hW hWt
      positivity
    have hargWR : (0 : ℝ) < (((c.sampleConc * c.sampleVol / 1000 -
        c.titrantConc * W / 1000) / (c.sampleVol + W) * 1000 : ℚ) : ℝ) := by
      exact_mod_cast hargW
    have hltR : (((c.sampleConc * c.sampleVol / 1000 -
        c.titrantConc * W / 1000) / (c.sampleVol + W) * 1000 : ℚ) : ℝ) <
        (((c.sampleConc * c.sampleVol / 1000 -
          c.titrantConc * V / 1000) / (c.sampleVol + V) * 1000 : ℚ) : ℝ) := by
      exact_mod_cast hlt
    have := Real.logb_lt_logb (by norm_num : (1 : ℝ) < 10) hargWR hltR
    linarith
  · -- both volumes already in base excess
    intro hV
    have hW : c.sampleConc * c.sampleVol / 1000 - c.titrantConc * W / 1000 < 0 := by
      have : c.titrantConc * V / 1000 < c.titrantConc * W / 1000 := by linarith
      linarith
    rw [computePH_strong_strong hs ht V, computePH_strong_strong hs ht W,
      if_neg (by linarith), if_pos hV, if_neg (by linarith), if_pos hW]
    simp only [PHFormula.toReal]
    rw [abs_of_neg hV, abs_of_neg hW]
    have hdiv : -(c.sampleConc * c.sampleVol / 1000 - c.titrantConc * V / 1000) /
        (c.sampleVol + V) < -(c.sampleConc * c.sampleVol / 1000 -
          c.titrantConc * W / 1000) / (c.sampleVol + W) := by
      rw [div_lt_div_iff₀ hVt hWt]
      nlinarith [mul_pos (sub_pos.mpr hVW)
        (show (0 : ℚ) < c.titrantConc * c.sampleVol / 1000 +
          c.sampleConc * c.sampleVol / 1000 by positivity)]
    have hlt : -(c.sampleConc * c.sampleVol / 1000 - c.titrantConc * V / 1000) /
        (c.sampleVol + V) * 1000 < -(c.sampleConc * c.sampleVol / 1000 -
          c.titrantConc * W / 1000) / (c.sampleVol + W) * 1000 := by
      linarith
    have hargV : (0 : ℚ) < -(c.sampleConc * c.sampleVol / 1000 -
        c.titrantConc * V / 1000) / (c.sampleVol + V) * 1000 := by
      have := div_pos (neg_pos.mpr hV) hVt
      positivity
    have hargVR : (0 : ℝ) < ((-(c.sampleConc * c.sampleVol / 1000 -
        c.titrantConc * V / 1000) / (c.sampleVol + V) * 1000 : ℚ) : ℝ) := by
      exact_mod_cast hargV
    have hltR : ((-(c.sampleConc * c.sampleVol / 1000 -
        c.titrantConc * V / 1000) / (c.sampleVol + V) * 1000 : ℚ) : ℝ) <
        ((-(c.sampleConc * c.sampleVol / 1000 -
          c.titrantConc * W / 1000) / (c.sampleVol + W) * 1000 : ℚ) : ℝ) := by
      exact_mod_cast hlt
    have := Real.logb_lt_logb (by norm_num : (1 : ℝ) < 10) hargVR hltR
    linarith

/-- Witness for the amended C6 at the default strong/strong config:
from V = 0 to V = 0.5 (both sampled and both in acid excess) the pH
strictly increases. -/
theorem C6_pH_strictMono_within_regions_witness :
    validConfig cfgSS ∧
      (computePH cfgSS 0).toReal < (computePH cfgSS (1/2)).toReal := by
  have hv : validConfig cfgSS := by norm_num [validConfig, cfgSS]
  have hmem0 : (0 : ℚ) ∈ volumeSeries cfgSS.stepSize :=
    zero_mem_volumeSeries (by norm_num [cfgSS])
  have hmem1 : (1/2 : ℚ) ∈ volumeSeries cfgSS.stepSize := by
    refine mem_volumeSeries.mpr ⟨1, ?_, by norm_num [cfgSS]⟩
    rw [show cfgSS.stepSize = 1/2 from rfl, numVols]
    norm_num
  refine ⟨hv, (C6_pH_strictMono_within_regions cfgSS hv rfl rfl 0 (1/2)
    hmem0 hmem1 (by norm_num)).1 (by norm_num [cfgSS])⟩

end Titration
